import Mathlib

/-!
Shallow embedding of `www/index.js` from the wasm-game-of-life frontend:
the render/animation/input loop (performance monitor, canvas renderer,
input controller, animation controller).  JavaScript numbers that can
become `Infinity` are modelled by `JsNum`; ordinary finite quantities are
rationals.  DOM side effects (canvas path commands, engine calls, frame
scheduling) are reified as explicit traces so that ordering and counts
can be stated and proved.
-/

namespace GameOfLife

/-- Rendering constant `CELL_SIZE = 10` (pixels), from `index.js` line 4. -/
def CELL_SIZE : ℕ := 10

/-- Grid-line colour constant `GRID_COLOR`, from `index.js` line 5. -/
def GRID_COLOR : String := "#CCCCCC"

/-- Dead-cell colour constant `DEAD_COLOR`, from `index.js` line 6. -/
def DEAD_COLOR : String := "#E0DEF4"

/-- Alive-cell colour constant `ALIVE_COLOR`, from `index.js` line 7. -/
def ALIVE_COLOR : String := "#191724"

/-- A JavaScript IEEE-754 double restricted to the values this program can
produce: finite rationals, the two infinities, and NaN. -/
inductive JsNum : Type
  | fin (q : ℚ)
  | inf
  | negInf
  | nan
deriving DecidableEq, Repr

/-- JavaScript `x + y` on `JsNum` values. -/
def jsAdd : JsNum → JsNum → JsNum
  | JsNum.nan, _ => JsNum.nan
  | _, JsNum.nan => JsNum.nan
  | JsNum.inf, JsNum.negInf => JsNum.nan
  | JsNum.negInf, JsNum.inf => JsNum.nan
  | JsNum.inf, _ => JsNum.inf
  | _, JsNum.inf => JsNum.inf
  | JsNum.negInf, _ => JsNum.negInf
  | _, JsNum.negInf => JsNum.negInf
  | JsNum.fin q, JsNum.fin r => JsNum.fin (q + r)

/-- JavaScript `Math.min(x, y)` (NaN propagates; `-Infinity` is least). -/
def jsMin : JsNum → JsNum → JsNum
  | JsNum.nan, _ => JsNum.nan
  | _, JsNum.nan => JsNum.nan
  | JsNum.negInf, _ => JsNum.negInf
  | _, JsNum.negInf => JsNum.negInf
  | JsNum.inf, y => y
  | x, JsNum.inf => x
  | JsNum.fin q, JsNum.fin r => JsNum.fin (min q r)

/-- JavaScript `Math.max(x, y)` (NaN propagates; `Infinity` is greatest). -/
def jsMax : JsNum → JsNum → JsNum
  | JsNum.nan, _ => JsNum.nan
  | _, JsNum.nan => JsNum.nan
  | JsNum.inf, _ => JsNum.inf
  | _, JsNum.inf => JsNum.inf
  | JsNum.negInf, y => y
  | x, JsNum.negInf => x
  | JsNum.fin q, JsNum.fin r => JsNum.fin (max q r)

/-- JavaScript division of a `JsNum` by a (nonnegative integer) length,
as used for `sum / this.frames.length`. -/
def jsDivNat : JsNum → ℕ → JsNum
  | JsNum.nan, _ => JsNum.nan
  | JsNum.inf, _ => JsNum.inf
  | JsNum.negInf, _ => JsNum.negInf
  | JsNum.fin q, 0 =>
      if q = 0 then JsNum.nan else if 0 < q then JsNum.inf else JsNum.negInf
  | JsNum.fin q, (n+1) => JsNum.fin (q / (n+1))

/-- The JavaScript `<=` ordering on `JsNum`: `-Infinity` is least,
`Infinity` is greatest, finite values compare as rationals, and any
comparison involving NaN is false. -/
def jsLe : JsNum → JsNum → Prop
  | JsNum.nan, _ => False
  | _, JsNum.nan => False
  | JsNum.negInf, _ => True
  | _, JsNum.inf => True
  | JsNum.inf, _ => False
  | _, JsNum.negInf => False
  | JsNum.fin q, JsNum.fin r => q ≤ r

/-- The instantaneous FPS value `1 / delta * 1000` computed at `index.js`
line 34; for `delta = 0` JavaScript yields `Infinity` (the delta is a
difference of clock readings, so NaN never arises here). -/
def instFps (delta : ℚ) : JsNum :=
  if delta = 0 then JsNum.inf else JsNum.fin (1 / delta * 1000)

/-- The sample-window update of `fps.render` (`index.js` lines 37-40):
`this.frames.push(fps); if (this.frames.length > 100) this.frames.shift();`.
Generic in the element type; the program instantiates it at `JsNum`. -/
def pushSample {α : Type} (frames : List α) (x : α) : List α :=
  let pushed := frames ++ [x]
  if 100 < pushed.length then pushed.tail else pushed

/-- The `min` accumulation of `fps.render` (`index.js` lines 43, 48):
`let min = Infinity; ... min = Math.min(this.frames[i], min);`. -/
def statsMin (frames : List JsNum) : JsNum :=
  frames.foldl (fun m x => jsMin x m) JsNum.inf

/-- The `max` accumulation of `fps.render` (`index.js` lines 44, 49):
`let max = -Infinity; ... max = Math.max(this.frames[i], max);`. -/
def statsMax (frames : List JsNum) : JsNum :=
  frames.foldl (fun m x => jsMax x m) JsNum.negInf

/-- The `sum` accumulation of `fps.render` (`index.js` lines 45, 47):
`let sum = 0; ... sum += this.frames[i];`. -/
def statsSum (frames : List JsNum) : JsNum :=
  frames.foldl (fun s x => jsAdd s x) (JsNum.fin 0)

/-- The `mean` of `fps.render` (`index.js` line 51):
`let mean = sum / this.frames.length;`. -/
def statsMean (frames : List JsNum) : JsNum :=
  jsDivNat (statsSum frames) frames.length

/-- A 2D-canvas path command issued by `drawGrid`. -/
inductive PathOp : Type
  | moveTo (x y : ℕ)
  | lineTo (x y : ℕ)
deriving DecidableEq, Repr

/-- The path commands issued by `drawGrid` (`index.js` lines 64-81): the
vertical-line loop emits a `moveTo`/`lineTo` pair per line; the
horizontal-line loop, exactly as written in the source, emits two
`moveTo`s and no `lineTo`. -/
def drawGridOps (width height cellSize : ℕ) : List PathOp :=
  (List.range (width + 1)).flatMap
    (fun i =>
      [PathOp.moveTo (i * (cellSize + 1) + 1) 0,
       PathOp.lineTo (i * (cellSize + 1) + 1) ((cellSize + 1) * height + 1)])
  ++
  (List.range (height + 1)).flatMap
    (fun j =>
      [PathOp.moveTo 0 (j * (cellSize + 1) + 1),
       PathOp.moveTo ((cellSize + 1) * width + 1) (j * (cellSize + 1) + 1)])

/-- The line segments painted by `ctx.stroke()` for a list of path
commands: `moveTo` moves the pen, `lineTo` strokes from the current pen
position and moves the pen. -/
def strokeSegs : Option (ℕ × ℕ) → List PathOp → List ((ℕ × ℕ) × (ℕ × ℕ))
  | _, [] => []
  | _, PathOp.moveTo x y :: rest => strokeSegs (some (x, y)) rest
  | some p, PathOp.lineTo x y :: rest => (p, (x, y)) :: strokeSegs (some (x, y)) rest
  | none, PathOp.lineTo x y :: rest => strokeSegs (some (x, y)) rest

/-- A stroked segment is horizontal when its endpoints share a y-coordinate. -/
def isHorizontal (s : (ℕ × ℕ) × (ℕ × ℕ)) : Bool := s.1.2 == s.2.2

/-- A stroked segment is vertical when its endpoints share an x-coordinate. -/
def isVertical (s : (ℕ × ℕ) × (ℕ × ℕ)) : Bool := s.1.1 == s.2.1

/-- Row-major cell indexing `getIndex` (`index.js` lines 83-85):
`row * width + column`. -/
def getIndex (width row column : ℕ) : ℕ := row * width + column

/-- Canvas raster width set at startup (`index.js` line 17):
`canvas.width = (CELL_SIZE + 1) * width + 1`. -/
def canvasRasterWidth (width cellSize : ℕ) : ℕ := (cellSize + 1) * width + 1

/-- Canvas raster height set at startup (`index.js` line 16):
`canvas.height = (CELL_SIZE + 1) * height + 1`. -/
def canvasRasterHeight (height cellSize : ℕ) : ℕ := (cellSize + 1) * height + 1

/-- Row computation of the click handler (`index.js` line 164):
`Math.min(Math.floor(canvasTop / (CELL_SIZE + 1)), height - 1)`. -/
def rowOf (height cellSize : ℕ) (canvasTop : ℚ) : ℤ :=
  min ⌊canvasTop / ((cellSize : ℚ) + 1)⌋ ((height : ℤ) - 1)

/-- Column computation of the click handler (`index.js` line 165):
`Math.min(Math.floor(canvasLeft / (CELL_SIZE + 1)), width - 1)`. -/
def colOf (width cellSize : ℕ) (canvasLeft : ℚ) : ℤ :=
  min ⌊canvasLeft / ((cellSize : ℚ) + 1)⌋ ((width : ℤ) - 1)

/-- The relevant fields of the click `event`. -/
structure ClickEvent : Type where
  clientX : ℚ
  clientY : ℚ
  ctrlKey : Bool
  shiftKey : Bool
deriving DecidableEq, Repr

/-- The canvas's on-screen bounding rectangle,
`canvas.getBoundingClientRect()`. -/
structure BoundingRect : Type where
  left : ℚ
  top : ℚ
  width : ℚ
  height : ℚ
deriving DecidableEq, Repr

/-- A mutating engine call issued by this frontend. -/
inductive EngineCmd : Type
  | toggleCell (row col : ℤ)
  | makeGlider (row col : ℤ)
  | makePulsar (row col : ℤ)
deriving DecidableEq, Repr

/-- The grid coordinates computed by the canvas click listener
(`index.js` lines 156-165): scale factors from raster vs. display size,
pointer mapped into raster space, then floor-division and the upper
clamp of `rowOf` / `colOf`. -/
def clickCoords (width height cellSize : ℕ) (rasterW rasterH : ℚ)
    (rect : BoundingRect) (ev : ClickEvent) : ℤ × ℤ :=
  let scaleX := rasterW / rect.width
  let scaleY := rasterH / rect.height
  let canvasLeft := (ev.clientX - rect.left) * scaleX
  let canvasTop := (ev.clientY - rect.top) * scaleY
  (rowOf height cellSize canvasTop, colOf width cellSize canvasLeft)

/-- The engine-mutation dispatch of the canvas click listener
(`index.js` lines 167-173): `ctrlKey` stamps a glider, else `shiftKey`
stamps a pulsar, else the single cell is toggled. -/
def handleClick (width height cellSize : ℕ) (rasterW rasterH : ℚ)
    (rect : BoundingRect) (ev : ClickEvent) : List EngineCmd :=
  let rc := clickCoords width height cellSize rasterW rasterH rect ev
  if ev.ctrlKey then [EngineCmd.makeGlider rc.1 rc.2]
  else if ev.shiftKey then [EngineCmd.makePulsar rc.1 rc.2]
  else [EngineCmd.toggleCell rc.1 rc.2]

/-- An observable action of one animation-loop step, in program order. -/
inductive Event : Type
  | sample
  | tick
  | gridPaint
  | cellsPaint
  | schedule
deriving DecidableEq, Repr

/-- The mutable page state the loop and the controls touch: the
performance monitor's fields (`frames`, `lastFrameTimeStamp`), the
engine generation counter (abstracting `universe`, advanced by `tick`),
the slider value, the animation handle `animationId`, the scheduler's
pending callback handles, the play/pause button label, and the reified
event trace. -/
structure World : Type where
  frames : List JsNum
  lastFrameTimeStamp : ℚ
  gen : ℕ
  sliderValue : ℕ
  animationId : Option ℕ
  pending : List ℕ
  nextHandle : ℕ
  label : String
  trace : List Event
deriving DecidableEq, Repr

/-- `fps.render()` (`index.js` lines 28-61) as a state update: reads the
clock (`now`), computes the delta, stores the new timestamp, and pushes
the instantaneous FPS value through the capacity-100 window.  The stats
written to the display are the pure functions `statsMin`/`statsMax`/
`statsMean` of the resulting window. -/
def fpsRender (now : ℚ) (w : World) : World :=
  { w with
    lastFrameTimeStamp := now
    frames := pushSample w.frames (instFps (now - w.lastFrameTimeStamp))
    trace := w.trace ++ [Event.sample] }

/-- One `universe.tick()` call (engine abstracted as a generation counter). -/
def universeTick (w : World) : World :=
  { w with gen := w.gen + 1, trace := w.trace ++ [Event.tick] }

/-- The `for (let i = 0; i < rangeSlider.value; i++) universe.tick();`
loop of `renderLoop` (`index.js` lines 203-205). -/
def tickLoop : ℕ → World → World
  | 0, w => w
  | n + 1, w => tickLoop n (universeTick w)

/-- `drawGrid()` as a traced action of the loop. -/
def drawGridStep (w : World) : World :=
  { w with trace := w.trace ++ [Event.gridPaint] }

/-- `drawCells()` as a traced action of the loop. -/
def drawCellsStep (w : World) : World :=
  { w with trace := w.trace ++ [Event.cellsPaint] }

/-- `animationId = requestAnimationFrame(renderLoop)` (`index.js` line
210): schedules a fresh callback handle, stores it in `animationId`. -/
def requestFrame (w : World) : World :=
  { w with
    animationId := some w.nextHandle
    pending := w.pending ++ [w.nextHandle]
    nextHandle := w.nextHandle + 1
    trace := w.trace ++ [Event.schedule] }

/-- `renderLoop` (`index.js` lines 200-211): `fps.render()`, the tick
loop, `drawGrid()`, `drawCells()`, then reschedule. -/
def renderLoop (now : ℚ) (w : World) : World :=
  requestFrame (drawCellsStep (drawGridStep (tickLoop w.sliderValue (fpsRender now w))))

/-- `isPaused` (`index.js` lines 130-132): `animationId === null`. -/
def isPaused (w : World) : Bool := w.animationId == none

/-- `cancelAnimationFrame(id)`: removes the handle from the scheduler's
pending set; with a `null` handle the call is ignored (Web API:
invalid handles are no-ops). -/
def cancelFrame (h : Option ℕ) (pending : List ℕ) : List ℕ :=
  match h with
  | none => pending
  | some i => pending.erase i

/-- `pause` (`index.js` lines 141-145): set the button label to the play
glyph, cancel via the stored handle, null the handle. -/
def pause (w : World) : World :=
  { w with
    label := "▶"
    pending := cancelFrame w.animationId w.pending
    animationId := none }

/-- `play` (`index.js` lines 136-139): set the button label to the pause
glyph, then run `renderLoop` once (which reschedules itself). -/
def play (now : ℚ) (w : World) : World :=
  renderLoop now { w with label := "⏸" }

/-- The play/pause button's click listener (`index.js` lines 147-153):
dispatches on `isPaused()`. -/
def playPauseClick (now : ℚ) (w : World) : World :=
  if isPaused w then play now w else pause w

/-- A concrete paused page state (the state right after startup). -/
def pausedWorld : World :=
  { frames := []
    lastFrameTimeStamp := 0
    gen := 0
    sliderValue := 1
    animationId := none
    pending := []
    nextHandle := 0
    label := "▶"
    trace := [] }

/-- A concrete page state whose performance clock last read 5 ms. -/
def perfWorldAtFive : World :=
  { frames := []
    lastFrameTimeStamp := 5
    gen := 0
    sliderValue := 1
    animationId := none
    pending := []
    nextHandle := 0
    label := "▶"
    trace := [] }

/-- 150 concrete FPS samples, `0, 1, ..., 149`. -/
def samples150 : List JsNum := (List.range 150).map (fun n => JsNum.fin n)

/-- A bounding rectangle equal to the 10×10-grid raster (scale factor 1). -/
def unitRect : BoundingRect := { left := 0, top := 0, width := 111, height := 111 }

/-- A plain click (no modifier) at client position (25, 35). -/
def clickAt2535 : ClickEvent :=
  { clientX := 25, clientY := 35, ctrlKey := false, shiftKey := false }

/-- A plain click whose x-position maps to a negative raster coordinate. -/
def clickAtNegX : ClickEvent :=
  { clientX := -12, clientY := 5, ctrlKey := false, shiftKey := false }

/-- A concrete sample window holding a finite value and an `Infinity`
(as produced by a zero inter-frame delta). -/
def mixedWindow : List JsNum := [JsNum.fin 2, JsNum.inf]

/-! ## Helper lemmas -/

theorem tickLoop_eq (n : ℕ) (w : World) :
    tickLoop n w
      = { w with gen := w.gen + n, trace := w.trace ++ List.replicate n Event.tick } := by
  induction n generalizing w with
  | zero => simp [tickLoop]
  | succ n ih =>
      rw [tickLoop, ih]
      simp [universeTick, List.replicate_succ]
      omega

theorem pushSample_foldl {α : Type} (xs : List α) :
    ∀ acc : List α, acc.length ≤ 100 →
      xs.foldl pushSample acc = (acc ++ xs).drop ((acc ++ xs).length - 100) := by
  induction xs with
  | nil =>
      intro acc h
      simp only [List.foldl_nil, List.append_nil]
      have h0 : acc.length - 100 = 0 := by omega
      rw [h0, List.drop_zero]
  | cons x rest ih =>
      intro acc h
      rw [List.foldl_cons]
      by_cases hc : 100 < (acc ++ [x]).length
      · have hlen : acc.length = 100 := by
          simp only [List.length_append, List.length_singleton] at hc
          omega
        have hp : pushSample acc x = (acc ++ [x]).tail := by
          simp only [pushSample]
          rw [if_pos hc]
        rw [hp, ih _ (by simp [hlen])]
        rcases acc with _ | ⟨a, acc'⟩
        · simp at hlen
        · simp only [List.cons_append, List.tail_cons]
          have e : (acc' ++ [x]) ++ rest = acc' ++ x :: rest := by simp
          rw [e]
          have hlen' : acc'.length = 99 := by
            simp only [List.length_cons] at hlen
            omega
          have hidx1 : (acc' ++ x :: rest).length - 100 = rest.length := by
            simp only [List.length_append, List.length_cons, hlen']
            omega
          have hidx2 : (a :: (acc' ++ x :: rest)).length - 100 = rest.length + 1 := by
            simp only [List.length_cons, List.length_append, hlen']
            omega
          rw [hidx1, hidx2, List.drop_succ_cons]
      · have hp : pushSample acc x = acc ++ [x] := by
          simp only [pushSample]
          rw [if_neg hc]
        rw [hp, ih _ (Nat.le_of_not_lt hc)]
        have e : (acc ++ [x]) ++ rest = acc ++ x :: rest := by simp
        rw [e]

theorem foldl_jsMin_fin (qs : List ℚ) (q : ℚ) :
    List.foldl (fun m x => jsMin x m) (JsNum.fin q) (qs.map JsNum.fin)
      = JsNum.fin (qs.foldl (fun m x => min x m) q) := by
  induction qs generalizing q with
  | nil => rfl
  | cons a rest ih =>
      simp only [List.map_cons, List.foldl_cons]
      rw [show jsMin (JsNum.fin a) (JsNum.fin q) = JsNum.fin (min a q) from rfl]
      exact ih (min a q)

theorem foldl_jsMax_fin (qs : List ℚ) (q : ℚ) :
    List.foldl (fun m x => jsMax x m) (JsNum.fin q) (qs.map JsNum.fin)
      = JsNum.fin (qs.foldl (fun m x => max x m) q) := by
  induction qs generalizing q with
  | nil => rfl
  | cons a rest ih =>
      simp only [List.map_cons, List.foldl_cons]
      rw [show jsMax (JsNum.fin a) (JsNum.fin q) = JsNum.fin (max a q) from rfl]
      exact ih (max a q)

theorem statsMin_cons_fin (a : ℚ) (rest : List ℚ) :
    statsMin ((a :: rest).map JsNum.fin) = JsNum.fin (rest.foldl (fun m x => min x m) a) := by
  simp only [statsMin, List.map_cons, List.foldl_cons]
  rw [show jsMin (JsNum.fin a) JsNum.inf = JsNum.fin a from rfl]
  exact foldl_jsMin_fin rest a

theorem statsMax_cons_fin (a : ℚ) (rest : List ℚ) :
    statsMax ((a :: rest).map JsNum.fin) = JsNum.fin (rest.foldl (fun m x => max x m) a) := by
  simp only [statsMax, List.map_cons, List.foldl_cons]
  rw [show jsMax (JsNum.fin a) JsNum.negInf = JsNum.fin a from rfl]
  exact foldl_jsMax_fin rest a

theorem foldl_min_le_init (q : ℚ) (qs : List ℚ) :
    qs.foldl (fun m x => min x m) q ≤ q := by
  induction qs generalizing q with
  | nil => exact le_refl q
  | cons a rest ih => exact (ih (min a q)).trans (min_le_right a q)

theorem foldl_max_ge_init (q : ℚ) (qs : List ℚ) :
    q ≤ qs.foldl (fun m x => max x m) q := by
  induction qs generalizing q with
  | nil => exact le_refl q
  | cons a rest ih => exact (le_max_right a q).trans (ih (max a q))

theorem foldl_min_le_mem (q : ℚ) (qs : List ℚ) :
    ∀ x ∈ qs, qs.foldl (fun m x => min x m) q ≤ x := by
  induction qs generalizing q with
  | nil => intro x hx; cases hx
  | cons a rest ih =>
      intro x hx
      simp only [List.foldl_cons]
      rcases List.mem_cons.mp hx with h | h
      · subst h
        exact (foldl_min_le_init (min x q) rest).trans (min_le_left x q)
      · exact ih (min a q) x h

theorem foldl_max_ge_mem (q : ℚ) (qs : List ℚ) :
    ∀ x ∈ qs, x ≤ qs.foldl (fun m x => max x m) q := by
  induction qs generalizing q with
  | nil => intro x hx; cases hx
  | cons a rest ih =>
      intro x hx
      simp only [List.foldl_cons]
      rcases List.mem_cons.mp hx with h | h
      · subst h
        exact (le_max_left x q).trans (foldl_max_ge_init (max x q) rest)
      · exact ih (max a q) x h

theorem foldl_min_mem (q : ℚ) (qs : List ℚ) :
    qs.foldl (fun m x => min x m) q = q ∨ qs.foldl (fun m x => min x m) q ∈ qs := by
  induction qs generalizing q with
  | nil => exact Or.inl rfl
  | cons a rest ih =>
      simp only [List.foldl_cons]
      rcases ih (min a q) with h | h
      · rcases min_cases a q with ⟨he, -⟩ | ⟨he, -⟩
        · right
          rw [h, he]
          exact List.mem_cons_self a rest
        · left
          rw [h, he]
      · right
        exact List.mem_cons_of_mem a h

theorem foldl_max_mem (q : ℚ) (qs : List ℚ) :
    qs.foldl (fun m x => max x m) q = q ∨ qs.foldl (fun m x => max x m) q ∈ qs := by
  induction qs generalizing q with
  | nil => exact Or.inl rfl
  | cons a rest ih =>
      simp only [List.foldl_cons]
      rcases ih (max a q) with h | h
      · rcases max_cases a q with ⟨he, -⟩ | ⟨he, -⟩
        · right
          rw [h, he]
          exact List.mem_cons_self a rest
        · left
          rw [h, he]
      · right
        exact List.mem_cons_of_mem a h

theorem foldl_jsAdd_fin (qs : List ℚ) (q : ℚ) :
    List.foldl (fun s x => jsAdd s x) (JsNum.fin q) (qs.map JsNum.fin)
      = JsNum.fin (q + qs.sum) := by
  induction qs generalizing q with
  | nil => simp
  | cons a rest ih =>
      simp only [List.map_cons, List.foldl_cons, List.sum_cons]
      rw [show jsAdd (JsNum.fin q) (JsNum.fin a) = JsNum.fin (q + a) from rfl, ih, add_assoc]

theorem statsSum_map_fin (qs : List ℚ) :
    statsSum (qs.map JsNum.fin) = JsNum.fin qs.sum := by
  simp only [statsSum]
  rw [foldl_jsAdd_fin, zero_add]

theorem mul_length_le_sum (A : ℚ) (qs : List ℚ) (h : ∀ x ∈ qs, A ≤ x) :
    A * qs.length ≤ qs.sum := by
  induction qs with
  | nil => simp
  | cons a rest ih =>
      simp only [List.length_cons, List.sum_cons]
      push_cast
      have ha := h a (List.mem_cons_self a rest)
      have hr := ih (fun x hx => h x (List.mem_cons_of_mem a hx))
      nlinarith

theorem sum_le_mul_length (B : ℚ) (qs : List ℚ) (h : ∀ x ∈ qs, x ≤ B) :
    qs.sum ≤ B * qs.length := by
  induction qs with
  | nil => simp
  | cons a rest ih =>
      simp only [List.length_cons, List.sum_cons]
      push_cast
      have ha := h a (List.mem_cons_self a rest)
      have hr := ih (fun x hx => h x (List.mem_cons_of_mem a hx))
      nlinarith

theorem jsLe_refl (x : JsNum) (hx : x ≠ JsNum.nan) : jsLe x x := by
  cases x <;> simp_all [jsLe]

theorem jsLe_trans {a b c : JsNum} (h1 : jsLe a b) (h2 : jsLe b c) : jsLe a c := by
  cases a <;> cases b <;> cases c <;> simp_all [jsLe] <;> linarith

theorem jsLe_any_inf (x : JsNum) (hx : x ≠ JsNum.nan) : jsLe x JsNum.inf := by
  cases x <;> simp_all [jsLe]

theorem eq_inf_of_jsLe_inf (x : JsNum) (hx : x ≠ JsNum.nan)
    (h : jsLe JsNum.inf x) : x = JsNum.inf := by
  cases x <;> simp_all [jsLe]

theorem eq_negInf_of_jsLe_negInf (x : JsNum) (hx : x ≠ JsNum.nan)
    (h : jsLe x JsNum.negInf) : x = JsNum.negInf := by
  cases x <;> simp_all [jsLe]

theorem jsMin_ne_nan {x m : JsNum} (hx : x ≠ JsNum.nan) (hm : m ≠ JsNum.nan) :
    jsMin x m ≠ JsNum.nan := by
  cases x <;> cases m <;> simp_all [jsMin]

theorem jsMax_ne_nan {x m : JsNum} (hx : x ≠ JsNum.nan) (hm : m ≠ JsNum.nan) :
    jsMax x m ≠ JsNum.nan := by
  cases x <;> cases m <;> simp_all [jsMax]

theorem jsMin_eq_or {x m : JsNum} (hx : x ≠ JsNum.nan) (hm : m ≠ JsNum.nan) :
    jsMin x m = x ∨ jsMin x m = m := by
  cases x <;> cases m <;> simp_all [jsMin] <;> exact le_total _ _

theorem jsMax_eq_or {x m : JsNum} (hx : x ≠ JsNum.nan) (hm : m ≠ JsNum.nan) :
    jsMax x m = x ∨ jsMax x m = m := by
  cases x <;> cases m <;> simp_all [jsMax] <;> exact le_total _ _

theorem jsMin_le_left {x m : JsNum} (hx : x ≠ JsNum.nan) (hm : m ≠ JsNum.nan) :
    jsLe (jsMin x m) x := by
  cases x <;> cases m <;> simp_all [jsMin, jsLe]

theorem jsMin_le_right {x m : JsNum} (hx : x ≠ JsNum.nan) (hm : m ≠ JsNum.nan) :
    jsLe (jsMin x m) m := by
  cases x <;> cases m <;> simp_all [jsMin, jsLe]

theorem jsMax_ge_left {x m : JsNum} (hx : x ≠ JsNum.nan) (hm : m ≠ JsNum.nan) :
    jsLe x (jsMax x m) := by
  cases x <;> cases m <;> simp_all [jsMax, jsLe]

theorem jsMax_ge_right {x m : JsNum} (hx : x ≠ JsNum.nan) (hm : m ≠ JsNum.nan) :
    jsLe m (jsMax x m) := by
  cases x <;> cases m <;> simp_all [jsMax, jsLe]

theorem foldl_jsMin_ne_nan (l : List JsNum) :
    ∀ acc : JsNum, acc ≠ JsNum.nan → (∀ x ∈ l, x ≠ JsNum.nan) →
      l.foldl (fun m x => jsMin x m) acc ≠ JsNum.nan := by
  induction l with
  | nil => intro acc hacc _; exact hacc
  | cons a rest ih =>
      intro acc hacc hl
      simp only [List.foldl_cons]
      exact ih _ (jsMin_ne_nan (hl a (List.mem_cons_self a rest)) hacc)
        (fun x hx => hl x (List.mem_cons_of_mem a hx))

theorem foldl_jsMax_ne_nan (l : List JsNum) :
    ∀ acc : JsNum, acc ≠ JsNum.nan → (∀ x ∈ l, x ≠ JsNum.nan) →
      l.foldl (fun m x => jsMax x m) acc ≠ JsNum.nan := by
  induction l with
  | nil => intro acc hacc _; exact hacc
  | cons a rest ih =>
      intro acc hacc hl
      simp only [List.foldl_cons]
      exact ih _ (jsMax_ne_nan (hl a (List.mem_cons_self a rest)) hacc)
        (fun x hx => hl x (List.mem_cons_of_mem a hx))

theorem foldl_jsMin_le_init (l : List JsNum) :
    ∀ acc : JsNum, acc ≠ JsNum.nan → (∀ x ∈ l, x ≠ JsNum.nan) →
      jsLe (l.foldl (fun m x => jsMin x m) acc) acc := by
  induction l with
  | nil => intro acc hacc _; exact jsLe_refl acc hacc
  | cons a rest ih =>
      intro acc hacc hl
      simp only [List.foldl_cons]
      have ha := hl a (List.mem_cons_self a rest)
      have hrest := fun x hx => hl x (List.mem_cons_of_mem a hx)
      exact jsLe_trans (ih _ (jsMin_ne_nan ha hacc) hrest) (jsMin_le_right ha hacc)

theorem foldl_jsMax_ge_init (l : List JsNum) :
    ∀ acc : JsNum, acc ≠ JsNum.nan → (∀ x ∈ l, x ≠ JsNum.nan) →
      jsLe acc (l.foldl (fun m x => jsMax x m) acc) := by
  induction l with
  | nil => intro acc hacc _; exact jsLe_refl acc hacc
  | cons a rest ih =>
      intro acc hacc hl
      simp only [List.foldl_cons]
      have ha := hl a (List.mem_cons_self a rest)
      have hrest := fun x hx => hl x (List.mem_cons_of_mem a hx)
      exact jsLe_trans (jsMax_ge_right ha hacc) (ih _ (jsMax_ne_nan ha hacc) hrest)

theorem foldl_jsMin_le_mem (l : List JsNum) :
    ∀ acc : JsNum, acc ≠ JsNum.nan → (∀ x ∈ l, x ≠ JsNum.nan) →
      ∀ x ∈ l, jsLe (l.foldl (fun m x => jsMin x m) acc) x := by
  induction l with
  | nil => intro acc _ _ x hx; cases hx
  | cons a rest ih =>
      intro acc hacc hl x hx
      simp only [List.foldl_cons]
      have ha := hl a (List.mem_cons_self a rest)
      have hrest := fun y hy => hl y (List.mem_cons_of_mem a hy)
      rcases List.mem_cons.mp hx with h | h
      · subst h
        exact jsLe_trans (foldl_jsMin_le_init rest _ (jsMin_ne_nan ha hacc) hrest)
          (jsMin_le_left ha hacc)
      · exact ih _ (jsMin_ne_nan ha hacc) hrest x h

theorem foldl_jsMax_ge_mem (l : List JsNum) :
    ∀ acc : JsNum, acc ≠ JsNum.nan → (∀ x ∈ l, x ≠ JsNum.nan) →
      ∀ x ∈ l, jsLe x (l.foldl (fun m x => jsMax x m) acc) := by
  induction l with
  | nil => intro acc _ _ x hx; cases hx
  | cons a rest ih =>
      intro acc hacc hl x hx
      simp only [List.foldl_cons]
      have ha := hl a (List.mem_cons_self a rest)
      have hrest := fun y hy => hl y (List.mem_cons_of_mem a hy)
      rcases List.mem_cons.mp hx with h | h
      · subst h
        exact jsLe_trans (jsMax_ge_left ha hacc)
          (foldl_jsMax_ge_init rest _ (jsMax_ne_nan ha hacc) hrest)
      · exact ih _ (jsMax_ne_nan ha hacc) hrest x h

theorem foldl_jsMin_mem (l : List JsNum) :
    ∀ acc : JsNum, acc ≠ JsNum.nan → (∀ x ∈ l, x ≠ JsNum.nan) →
      l.foldl (fun m x => jsMin x m) acc = acc
        ∨ l.foldl (fun m x => jsMin x m) acc ∈ l := by
  induction l with
  | nil => intro acc _ _; exact Or.inl rfl
  | cons a rest ih =>
      intro acc hacc hl
      simp only [List.foldl_cons]
      have ha := hl a (List.mem_cons_self a rest)
      have hrest := fun y hy => hl y (List.mem_cons_of_mem a hy)
      rcases ih (jsMin a acc) (jsMin_ne_nan ha hacc) hrest with h | h
      · rcases jsMin_eq_or ha hacc with he | he
        · right
          rw [h, he]
          exact List.mem_cons_self a rest
        · left
          rw [h, he]
      · right
        exact List.mem_cons_of_mem a h

theorem foldl_jsMax_mem (l : List JsNum) :
    ∀ acc : JsNum, acc ≠ JsNum.nan → (∀ x ∈ l, x ≠ JsNum.nan) →
      l.foldl (fun m x => jsMax x m) acc = acc
        ∨ l.foldl (fun m x => jsMax x m) acc ∈ l := by
  induction l with
  | nil => intro acc _ _; exact Or.inl rfl
  | cons a rest ih =>
      intro acc hacc hl
      simp only [List.foldl_cons]
      have ha := hl a (List.mem_cons_self a rest)
      have hrest := fun y hy => hl y (List.mem_cons_of_mem a hy)
      rcases ih (jsMax a acc) (jsMax_ne_nan ha hacc) hrest with h | h
      · rcases jsMax_eq_or ha hacc with he | he
        · right
          rw [h, he]
          exact List.mem_cons_self a rest
        · left
          rw [h, he]
      · right
        exact List.mem_cons_of_mem a h

theorem jsAdd_ok {a b : JsNum} (ha : a ≠ JsNum.nan ∧ a ≠ JsNum.negInf)
    (hb : b ≠ JsNum.nan ∧ b ≠ JsNum.negInf) :
    jsAdd a b ≠ JsNum.nan ∧ jsAdd a b ≠ JsNum.negInf := by
  obtain ⟨ha1, ha2⟩ := ha
  obtain ⟨hb1, hb2⟩ := hb
  cases a <;> cases b <;> simp_all [jsAdd]

theorem jsAdd_inf_right {a : JsNum} (ha1 : a ≠ JsNum.nan) (ha2 : a ≠ JsNum.negInf) :
    jsAdd a JsNum.inf = JsNum.inf := by
  cases a <;> simp_all [jsAdd]

theorem foldl_jsAdd_from_inf (l : List JsNum)
    (hl : ∀ x ∈ l, x ≠ JsNum.nan ∧ x ≠ JsNum.negInf) :
    l.foldl (fun s x => jsAdd s x) JsNum.inf = JsNum.inf := by
  induction l with
  | nil => rfl
  | cons a rest ih =>
      simp only [List.foldl_cons]
      have ha := hl a (List.mem_cons_self a rest)
      have he : jsAdd JsNum.inf a = JsNum.inf := by
        obtain ⟨h1, h2⟩ := ha
        cases a <;> simp_all [jsAdd]
      rw [he]
      exact ih (fun x hx => hl x (List.mem_cons_of_mem a hx))

theorem foldl_jsAdd_eq_inf (l : List JsNum) :
    ∀ acc : JsNum, acc ≠ JsNum.nan → acc ≠ JsNum.negInf →
      (∀ x ∈ l, x ≠ JsNum.nan ∧ x ≠ JsNum.negInf) → JsNum.inf ∈ l →
      l.foldl (fun s x => jsAdd s x) acc = JsNum.inf := by
  induction l with
  | nil =>
      intro acc _ _ _ hmem
      cases hmem
  | cons a rest ih =>
      intro acc hacc1 hacc2 hl hmem
      simp only [List.foldl_cons]
      have ha := hl a (List.mem_cons_self a rest)
      have hrest := fun x hx => hl x (List.mem_cons_of_mem a hx)
      by_cases hainf : a = JsNum.inf
      · subst hainf
        rw [jsAdd_inf_right hacc1 hacc2]
        exact foldl_jsAdd_from_inf rest hrest
      · have hmem' : JsNum.inf ∈ rest := by
          rcases List.mem_cons.mp hmem with h | h
          · exact absurd h.symm hainf
          · exact h
        have hok' := jsAdd_ok ⟨hacc1, hacc2⟩ ha
        exact ih (jsAdd acc a) hok'.1 hok'.2 hrest hmem'

theorem exists_map_fin (l : List JsNum) (h : ∀ x ∈ l, ∃ q : ℚ, x = JsNum.fin q) :
    ∃ qs : List ℚ, l = qs.map JsNum.fin := by
  induction l with
  | nil => exact ⟨[], rfl⟩
  | cons a rest ih =>
      obtain ⟨q, hq⟩ := h a (List.mem_cons_self a rest)
      obtain ⟨qs, hqs⟩ := ih (fun x hx => h x (List.mem_cons_of_mem a hx))
      exact ⟨q :: qs, by rw [hq, hqs]; rfl⟩

/-- Every value `fps.render` can push into the window is an `instFps`
output, which is never NaN and never `-Infinity`; this justifies the
window-entry hypothesis of the statistics theorem. -/
theorem instFps_ok (delta : ℚ) :
    instFps delta ≠ JsNum.nan ∧ instFps delta ≠ JsNum.negInf := by
  by_cases h : delta = 0 <;> simp [instFps, h]

theorem jsDivNat_inf (n : ℕ) : jsDivNat JsNum.inf n = JsNum.inf := rfl

/-! ## Claim theorems -/

/-- C2: one `renderLoop` step performs, strictly in order, one performance
sample, then exactly `sliderValue` engine ticks, then the grid repaint and
the cell repaint, then schedules the next step and stores the returned
handle in `animationId`; the generation counter advances by exactly
`sliderValue`. -/
theorem renderLoop_step_order (now : ℚ) (w : World) :
    (renderLoop now w).trace
        = w.trace ++ [Event.sample] ++ List.replicate w.sliderValue Event.tick
            ++ [Event.gridPaint, Event.cellsPaint, Event.schedule]
      ∧ (renderLoop now w).gen = w.gen + w.sliderValue
      ∧ (renderLoop now w).animationId = some w.nextHandle := by
  simp [renderLoop, fpsRender, drawGridStep, drawCellsStep, requestFrame, tickLoop_eq]

/-- C4: calling `pause` when the controller is already paused (no handle
stored) leaves the state paused, removes nothing from the scheduler's
pending callbacks (no cancellation side effect), and the button listener's
`isPaused` guard dispatches to `play`, never to `pause`, in that state. -/
theorem pause_when_paused_noop (now : ℚ) (w : World) (h : isPaused w = true) :
    isPaused (pause w) = true
      ∧ (pause w).pending = w.pending
      ∧ (pause w).animationId = none
      ∧ playPauseClick now w = play now w := by
  have ha : w.animationId = none := by simpa [isPaused] using h
  simp [pause, cancelFrame, ha, isPaused, playPauseClick, h]

/-- Witness for C4 at the concrete startup state. -/
theorem pause_when_paused_noop_witness :
    isPaused (pause pausedWorld) = true
      ∧ (pause pausedWorld).pending = pausedWorld.pending
      ∧ (pause pausedWorld).animationId = none
      ∧ playPauseClick 0 pausedWorld = play 0 pausedWorld :=
  pause_when_paused_noop 0 pausedWorld rfl

/-- C7: on a 10×10 grid with cell size 10, a plain click mapping to raster
pixel (25, 35) issues exactly the single engine call `toggle_cell(3, 2)`
(no glider stamp, no pulsar stamp, no other mutation). -/
theorem click_toggles_cell_3_2 :
    handleClick 10 10 10 111 111 unitRect clickAt2535 = [EngineCmd.toggleCell 3 2] := by
  have hrow : rowOf 10 10 (35 : ℚ) = 3 := by
    rw [rowOf]
    norm_num [Int.floor_eq_iff]
  have hcol : colOf 10 10 (25 : ℚ) = 2 := by
    rw [colOf]
    norm_num [Int.floor_eq_iff]
  simp [handleClick, clickCoords, unitRect, clickAt2535, hrow, hcol]

/-- C8: on a grid of the given dimensions, `getIndex` restricted to valid
`(row, col)` pairs is a bijection onto the index interval
`[0, width * height)`. -/
theorem getIndex_bijOn (width height : ℕ) :
    Set.BijOn (fun p : ℕ × ℕ => getIndex width p.1 p.2)
      {p : ℕ × ℕ | p.1 < height ∧ p.2 < width} (Set.Ico 0 (width * height)) := by
  refine ⟨?_, ?_, ?_⟩
  · rintro ⟨r, c⟩ ⟨hr, hc⟩
    simp only [getIndex, Set.mem_Ico]
    refine ⟨Nat.zero_le _, ?_⟩
    calc r * width + c < r * width + width := by omega
      _ = (r + 1) * width := by ring
      _ ≤ height * width := Nat.mul_le_mul_right _ (by omega)
      _ = width * height := Nat.mul_comm _ _
  · rintro ⟨r1, c1⟩ ⟨hr1, hc1⟩ ⟨r2, c2⟩ ⟨hr2, hc2⟩ he
    simp only [getIndex] at he
    have hw : 0 < width := by omega
    have e1 : (r1 * width + c1) / width = r1 := by
      rw [Nat.mul_comm, Nat.mul_add_div hw, Nat.div_eq_of_lt hc1, Nat.add_zero]
    have e2 : (r2 * width + c2) / width = r2 := by
      rw [Nat.mul_comm, Nat.mul_add_div hw, Nat.div_eq_of_lt hc2, Nat.add_zero]
    have hr : r1 = r2 := by rw [← e1, ← e2, he]
    have hcc : c1 = c2 := by
      subst hr
      exact Nat.add_left_cancel he
    simp [hr, hcc]
  · rintro n hn
    simp only [Set.mem_Ico] at hn
    rcases Nat.eq_zero_or_pos width with h0 | hw
    · subst h0
      simp at hn
    · refine ⟨(n / width, n % width), ⟨?_, Nat.mod_lt _ hw⟩, ?_⟩
      · exact (Nat.div_lt_iff_lt_mul hw).mpr (by rw [Nat.mul_comm]; exact hn.2)
      · simp only [getIndex]
        rw [Nat.mul_comm]
        exact Nat.div_add_mod n width

/-- C3: the sample window built by repeatedly applying the `fps.render`
window update never exceeds 100 entries, and after exactly 150 recorded
values it holds precisely the 100 most recent values in order (the oldest
50 having been evicted first). -/
theorem fps_window_fifo_capacity (xs : List JsNum) :
    (xs.foldl pushSample ([] : List JsNum)).length ≤ 100
      ∧ (xs.length = 150 → xs.foldl pushSample ([] : List JsNum) = xs.drop 50) := by
  have h := pushSample_foldl xs [] (by simp)
  constructor
  · rw [h]
    simp only [List.nil_append, List.length_drop]
    omega
  · intro h150
    rw [h]
    simp only [List.nil_append]
    rw [h150]

/-- Witness for C3: 150 concrete samples leave exactly the last 100. -/
theorem fps_window_fifo_capacity_witness :
    (samples150.foldl pushSample ([] : List JsNum)).length ≤ 100
      ∧ samples150.foldl pushSample ([] : List JsNum) = samples150.drop 50 :=
  ⟨(fps_window_fifo_capacity samples150).1,
   (fps_window_fifo_capacity samples150).2 rfl⟩

/-- C1 counterexample: a click whose pointer position maps to the negative
raster x-coordinate −12 yields `col = -2`, which is not clamped into
`[0, width-1]` — the handler has no lower clamp. -/
theorem click_negative_not_clamped :
    (clickCoords 10 10 10 111 111 unitRect clickAtNegX).2 = -2
      ∧ ¬ (0 ≤ (clickCoords 10 10 10 111 111 unitRect clickAtNegX).2) := by
  have hf : (⌊(-12 : ℚ) / 11⌋ : ℤ) = -2 := by
    rw [Int.floor_eq_iff]
    norm_num
  have hcol : colOf 10 10 (-12 : ℚ) = -2 := by
    rw [colOf]
    norm_num [hf]
  have h2 : (clickCoords 10 10 10 111 111 unitRect clickAtNegX).2 = -2 := by
    simp [clickCoords, unitRect, clickAtNegX, hcol]
  exact ⟨h2, by rw [h2]; norm_num⟩

/-- C1 (amended): the click handler clamps `row`/`col` from above to
`height-1`/`width-1` but applies no lower clamp; whenever the mapped
raster coordinate is non-negative (in particular for every click inside
the canvas) the resulting coordinate is also non-negative, hence in
range. -/
theorem clickCoords_upper_clamp (width height cellSize : ℕ) (rasterW rasterH : ℚ)
    (rect : BoundingRect) (ev : ClickEvent) (hh : 0 < height) (hw : 0 < width) :
    (clickCoords width height cellSize rasterW rasterH rect ev).1 ≤ (height : ℤ) - 1
      ∧ (clickCoords width height cellSize rasterW rasterH rect ev).2 ≤ (width : ℤ) - 1
      ∧ (0 ≤ (ev.clientY - rect.top) * (rasterH / rect.height) →
          0 ≤ (clickCoords width height cellSize rasterW rasterH rect ev).1)
      ∧ (0 ≤ (ev.clientX - rect.left) * (rasterW / rect.width) →
          0 ≤ (clickCoords width height cellSize rasterW rasterH rect ev).2) := by
  have hc : (0 : ℚ) < (cellSize : ℚ) + 1 := by positivity
  simp only [clickCoords, rowOf, colOf]
  refine ⟨min_le_right _ _, min_le_right _ _, ?_, ?_⟩
  · intro hy
    exact le_min (Int.floor_nonneg.mpr (div_nonneg hy hc.le)) (by omega)
  · intro hx
    exact le_min (Int.floor_nonneg.mpr (div_nonneg hx hc.le)) (by omega)

/-- Witness for the amended C1 at a concrete in-canvas click. -/
theorem clickCoords_upper_clamp_witness :
    (clickCoords 10 10 10 111 111 unitRect clickAt2535).1 ≤ ((10 : ℕ) : ℤ) - 1
      ∧ (clickCoords 10 10 10 111 111 unitRect clickAt2535).2 ≤ ((10 : ℕ) : ℤ) - 1
      ∧ (0 ≤ (clickAt2535.clientY - unitRect.top) * (111 / unitRect.height) →
          0 ≤ (clickCoords 10 10 10 111 111 unitRect clickAt2535).1)
      ∧ (0 ≤ (clickAt2535.clientX - unitRect.left) * (111 / unitRect.width) →
          0 ≤ (clickCoords 10 10 10 111 111 unitRect clickAt2535).2) :=
  clickCoords_upper_clamp 10 10 10 111 111 unitRect clickAt2535
    (by norm_num) (by norm_num)

/-- C9: the canvas raster is sized `(cellSize+1)*width+1` by
`(cellSize+1)*height+1`, and for every raster coordinate inside those
bounds, floor-division by `cellSize+1` followed by the handler's
upper-bound clamp lands in `[0, height) × [0, width)`, satisfying
`toggle_cell`'s precondition for every in-canvas click. -/
theorem in_canvas_click_safe (width height cellSize : ℕ) (x y : ℚ)
    (hh : 0 < height) (hw : 0 < width)
    (hx0 : 0 ≤ x) (hx : x < (canvasRasterWidth width cellSize : ℚ))
    (hy0 : 0 ≤ y) (hy : y < (canvasRasterHeight height cellSize : ℚ)) :
    (0 ≤ rowOf height cellSize y ∧ rowOf height cellSize y < height)
      ∧ (0 ≤ colOf width cellSize x ∧ colOf width cellSize x < width) := by
  have hc : (0 : ℚ) < (cellSize : ℚ) + 1 := by positivity
  simp only [rowOf, colOf]
  refine ⟨⟨le_min (Int.floor_nonneg.mpr (div_nonneg hy0 hc.le)) (by omega), ?_⟩,
          le_min (Int.floor_nonneg.mpr (div_nonneg hx0 hc.le)) (by omega), ?_⟩
  · have h1 := min_le_right ⌊y / ((cellSize : ℚ) + 1)⌋ ((height : ℤ) - 1)
    omega
  · have h1 := min_le_right ⌊x / ((cellSize : ℚ) + 1)⌋ ((width : ℤ) - 1)
    omega

/-- Witness for C9 at raster pixel (25, 35) on the 10×10 grid. -/
theorem in_canvas_click_safe_witness :
    ((0 ≤ rowOf 10 10 35 ∧ rowOf 10 10 35 < 10)
      ∧ (0 ≤ colOf 10 10 25 ∧ colOf 10 10 25 < 10)) :=
  in_canvas_click_safe 10 10 10 25 35 (by norm_num) (by norm_num)
    (by norm_num) (by norm_num [canvasRasterWidth])
    (by norm_num) (by norm_num [canvasRasterHeight])

/-- C6 counterexample: with the clock unchanged between frames
(`delta = 0`), `fps.render` appends the JavaScript value `Infinity` to the
sample window instead of dropping the sample. -/
theorem fps_infinity_appended : JsNum.inf ∈ (fpsRender 5 perfWorldAtFive).frames := by
  simp [fpsRender, perfWorldAtFive, pushSample, instFps]

/-- C6 (amended): a non-positive inter-frame delta is not dropped:
`fps.render` appends `1/delta*1000` to the window unconditionally —
`Infinity` when the delta is zero, a negative finite value when the delta
is negative. -/
theorem fps_nonpositive_delta_not_dropped (now : ℚ) (w : World)
    (h : now ≤ w.lastFrameTimeStamp) :
    (fpsRender now w).frames = pushSample w.frames (instFps (now - w.lastFrameTimeStamp))
      ∧ (now = w.lastFrameTimeStamp → instFps (now - w.lastFrameTimeStamp) = JsNum.inf)
      ∧ (now < w.lastFrameTimeStamp →
          ∃ q : ℚ, instFps (now - w.lastFrameTimeStamp) = JsNum.fin q ∧ q < 0) := by
  refine ⟨rfl, ?_, ?_⟩
  · intro he
    simp [instFps, he]
  · intro hlt
    have hne : now - w.lastFrameTimeStamp ≠ 0 := sub_ne_zero.mpr (ne_of_lt hlt)
    refine ⟨1 / (now - w.lastFrameTimeStamp) * 1000, by simp [instFps, hne], ?_⟩
    have hneg : now - w.lastFrameTimeStamp < 0 := sub_neg.mpr hlt
    have h1 : 1 / (now - w.lastFrameTimeStamp) < 0 := one_div_neg.mpr hneg
    exact mul_neg_of_neg_of_pos h1 (by norm_num)

/-- Witness for the amended C6 at the concrete zero-delta state. -/
theorem fps_nonpositive_delta_not_dropped_witness :
    (fpsRender 5 perfWorldAtFive).frames
        = pushSample perfWorldAtFive.frames (instFps (5 - perfWorldAtFive.lastFrameTimeStamp))
      ∧ ((5 : ℚ) = perfWorldAtFive.lastFrameTimeStamp →
          instFps (5 - perfWorldAtFive.lastFrameTimeStamp) = JsNum.inf)
      ∧ ((5 : ℚ) < perfWorldAtFive.lastFrameTimeStamp →
          ∃ q : ℚ, instFps (5 - perfWorldAtFive.lastFrameTimeStamp) = JsNum.fin q ∧ q < 0) :=
  fps_nonpositive_delta_not_dropped 5 perfWorldAtFive (le_refl 5)

/-- C5 (code evaluated at the failing input): on a 2×2 grid `drawGrid`'s
stroked path contains `width+1 = 3` vertical segments and zero horizontal
segments — the horizontal-line loop issues only `moveTo` commands, so the
`height+1 = 3` horizontal grid lines the spec describes are never
stroked. -/
theorem drawGrid_horizontal_lines_missing :
    ((strokeSegs none (drawGridOps 2 2 10)).filter isHorizontal).length = 0
      ∧ ((strokeSegs none (drawGridOps 2 2 10)).filter isVertical).length = 2 + 1 := by
  decide

/-- C10: for every non-empty sample window the program can build (window
entries are `instFps` outputs, hence never NaN and never `-Infinity`),
the statistics computed by `fps.render` satisfy min ≤ mean ≤ max in the
JavaScript ordering, where min and max are exactly the least and greatest
values currently in the window (attained elements bounding every entry,
`Infinity` included) and mean is exactly the sum of the window's values
divided by its length. -/
theorem fps_stats_min_mean_max (frames : List JsNum) (hne : frames ≠ [])
    (hok : ∀ x ∈ frames, x ≠ JsNum.nan ∧ x ≠ JsNum.negInf) :
    statsMin frames ∈ frames
    ∧ statsMax frames ∈ frames
    ∧ (∀ x ∈ frames, jsLe (statsMin frames) x ∧ jsLe x (statsMax frames))
    ∧ statsMean frames = jsDivNat (statsSum frames) frames.length
    ∧ jsLe (statsMin frames) (statsMean frames)
    ∧ jsLe (statsMean frames) (statsMax frames) := by
  have hnn : ∀ x ∈ frames, x ≠ JsNum.nan := fun x hx => (hok x hx).1
  have hminne : statsMin frames ≠ JsNum.nan := by
    simp only [statsMin]
    exact foldl_jsMin_ne_nan frames JsNum.inf (by simp) hnn
  have hmaxne : statsMax frames ≠ JsNum.nan := by
    simp only [statsMax]
    exact foldl_jsMax_ne_nan frames JsNum.negInf (by simp) hnn
  have hminle : ∀ x ∈ frames, jsLe (statsMin frames) x := by
    simp only [statsMin]
    exact foldl_jsMin_le_mem frames JsNum.inf (by simp) hnn
  have hmaxge : ∀ x ∈ frames, jsLe x (statsMax frames) := by
    simp only [statsMax]
    exact foldl_jsMax_ge_mem frames JsNum.negInf (by simp) hnn
  have hminmem : statsMin frames ∈ frames := by
    rcases foldl_jsMin_mem frames JsNum.inf (by simp) hnn with h | h
    · have hs : statsMin frames = JsNum.inf := by simpa [statsMin] using h
      rcases frames with _ | ⟨a, rest⟩
      · exact absurd rfl hne
      have hla := hminle a (List.mem_cons_self a rest)
      rw [hs] at hla ⊢
      have hainf := eq_inf_of_jsLe_inf a (hnn a (List.mem_cons_self a rest)) hla
      rw [← hainf]
      exact List.mem_cons_self a rest
    · simpa [statsMin] using h
  have hmaxmem : statsMax frames ∈ frames := by
    rcases foldl_jsMax_mem frames JsNum.negInf (by simp) hnn with h | h
    · exfalso
      have hs : statsMax frames = JsNum.negInf := by simpa [statsMax] using h
      rcases frames with _ | ⟨a, rest⟩
      · exact absurd rfl hne
      have hla := hmaxge a (List.mem_cons_self a rest)
      rw [hs] at hla
      have hanegInf :=
        eq_negInf_of_jsLe_negInf a (hnn a (List.mem_cons_self a rest)) hla
      exact absurd hanegInf (hok a (List.mem_cons_self a rest)).2
    · simpa [statsMax] using h
  have hchain : jsLe (statsMin frames) (statsMean frames)
      ∧ jsLe (statsMean frames) (statsMax frames) := by
    by_cases hinf : JsNum.inf ∈ frames
    · have hsum : statsSum frames = JsNum.inf := by
        simp only [statsSum]
        exact foldl_jsAdd_eq_inf frames (JsNum.fin 0) (by simp) (by simp) hok hinf
      have hmean : statsMean frames = JsNum.inf := by
        simp only [statsMean, hsum, jsDivNat_inf]
      have hmaxinf : statsMax frames = JsNum.inf :=
        eq_inf_of_jsLe_inf _ hmaxne (hmaxge JsNum.inf hinf)
      constructor
      · rw [hmean]
        exact jsLe_any_inf _ hminne
      · rw [hmean, hmaxinf]
        simp [jsLe]
    · have hfin : ∀ x ∈ frames, ∃ q : ℚ, x = JsNum.fin q := by
        intro x hx
        rcases hok x hx with ⟨h1, h2⟩
        cases x with
        | fin q => exact ⟨q, rfl⟩
        | inf => exact absurd hx hinf
        | negInf => exact absurd rfl h2
        | nan => exact absurd rfl h1
      obtain ⟨qs, rfl⟩ := exists_map_fin frames hfin
      rcases qs with _ | ⟨a, rest⟩
      · exact absurd rfl hne
      have hAle : ∀ x ∈ a :: rest, rest.foldl (fun m x => min x m) a ≤ x := by
        intro x hx
        rcases List.mem_cons.mp hx with h | h
        · rw [h]
          exact foldl_min_le_init a rest
        · exact foldl_min_le_mem a rest x h
      have hBge : ∀ x ∈ a :: rest, x ≤ rest.foldl (fun m x => max x m) a := by
        intro x hx
        rcases List.mem_cons.mp hx with h | h
        · rw [h]
          exact foldl_max_ge_init a rest
        · exact foldl_max_ge_mem a rest x h
      have hlenpos : (0 : ℚ) < ((a :: rest).length : ℚ) := by
        simp only [List.length_cons]
        push_cast
        positivity
      have hmean : statsMean ((a :: rest).map JsNum.fin)
          = JsNum.fin ((a :: rest).sum / ((a :: rest).length : ℚ)) := by
        simp only [statsMean, statsSum_map_fin, List.length_map, List.length_cons,
          jsDivNat]
        push_cast
        rfl
      constructor
      · rw [statsMin_cons_fin, hmean]
        simp only [jsLe]
        exact (le_div_iff₀ hlenpos).mpr (mul_length_le_sum _ _ hAle)
      · rw [statsMax_cons_fin, hmean]
        simp only [jsLe]
        exact (div_le_iff₀ hlenpos).mpr (sum_le_mul_length _ _ hBge)
  exact ⟨hminmem, hmaxmem, fun x hx => ⟨hminle x hx, hmaxge x hx⟩, rfl,
    hchain.1, hchain.2⟩

/-- Witness for C10 on the concrete window holding a finite sample and an
`Infinity` sample. -/
theorem fps_stats_min_mean_max_witness :
    statsMin mixedWindow ∈ mixedWindow
    ∧ statsMax mixedWindow ∈ mixedWindow
    ∧ (∀ x ∈ mixedWindow, jsLe (statsMin mixedWindow) x ∧ jsLe x (statsMax mixedWindow))
    ∧ statsMean mixedWindow = jsDivNat (statsSum mixedWindow) mixedWindow.length
    ∧ jsLe (statsMin mixedWindow) (statsMean mixedWindow)
    ∧ jsLe (statsMean mixedWindow) (statsMax mixedWindow) :=
  fps_stats_min_mean_max mixedWindow (by simp [mixedWindow]) (by simp [mixedWindow])

end GameOfLife
